import Mathlib

/-!
Verification development for the hsnips snippet compiler (`src/parser.ts`).

Lines of the snippet source file are embedded as `List Char`.  The body
compiler (`parseSnippet`), the header grammar (`parseSnippetHeader` with its
regex `HEADER_REGEXP`), the file compiler (`parse`) and the execution adapter
(the `new Function` call with `safeRequire`) are translated definition by
definition.  The JavaScript statements that `parseSnippet` emits into the
generated generator-function source are modelled by the inductive type `Stmt`
(one constructor per `script.push(...)` site in the source), `render` maps a
`Stmt` to the exact line of JavaScript text pushed by the source, and
`execStmts` gives the JavaScript evaluation semantics of the emitted statement
forms (a user script line may only read and write the `rv` variable; its
effect is an oracle parameter `uf`).
-/

/-- A line of text, as a list of characters. -/
abbrev Line := List Char

/-- The backtick character (written via its code point to keep the file free
of backtick character literals). -/
def bt : Char := Char.ofNat 96

/-- `CODE_DELIMITER = '``'` from the source: two consecutive backticks. -/
def dd : Line := [bt, bt]

/-- Converts a string literal to a `Line`. -/
def str (s : String) : Line := s.toList

/-- Prepends a character to the first part of a part list (helper used to
state character-by-character scanning of `String.split`). -/
def consHead (c : Char) : List Line → List Line
  | [] => [[c]]
  | p :: ps => (c :: p) :: ps

/-- Whether a remainder of the line starts with a backtick (the negative
lookahead test of `CODE_DELIMITER_REGEX`). -/
def lookBt : Line → Bool
  | c :: _ => c == bt
  | [] => false

/-- `line.split(CODE_DELIMITER_REGEX)` from the source, where
`CODE_DELIMITER_REGEX` is two backticks not followed by a third: scanning left
to right, a match is two consecutive backticks whose following character is
not a backtick (the JavaScript regex engine skips a candidate voided by the
lookahead and retries at the next offset). -/
def splitDelim : Line → List Line
  | [] => [[]]
  | [c] => [[c]]
  | c1 :: c2 :: rest =>
    if c1 == bt && (c2 == bt && !(lookBt rest)) then [] :: splitDelim rest
    else consHead c1 (splitDelim (c2 :: rest))

/-- `parts.join(CODE_DELIMITER)` from the source: interleave the delimiter
between the parts. -/
def joinDelim : List Line → Line
  | [] => []
  | [p] => p
  | p :: ps => p ++ bt :: bt :: joinDelim ps

/-- Positions (character offsets into the original line) at which a part list
produced by `splitDelim` was cut. -/
def boundaries : List Line → List Nat
  | [] => []
  | [_] => []
  | p :: ps => p.length :: (boundaries ps).map (fun i => i + (p.length + 2))

/-- Whether position `i` of `l` is an occurrence of two consecutive backticks
not immediately followed by a third. -/
def isDelimAt (l : Line) (i : Nat) : Bool :=
  match l.drop i with
  | a :: b :: r => a == bt && (b == bt && !(lookBt r))
  | _ => false

/-- `haystack.includes(needle)` from JavaScript: plain substring search. -/
def containsStr (pat : Line) : Line → Bool
  | [] => List.isPrefixOf pat []
  | c :: t => List.isPrefixOf pat (c :: t) || containsStr pat t

/-- `line.includes(CODE_DELIMITER)` from the source. -/
def containsDelim (l : Line) : Bool := containsStr dd l

/-- `line.startsWith(pat)` from JavaScript. -/
def startsWithL (pat l : Line) : Bool := List.isPrefixOf pat l

/-- JavaScript whitespace, as used by `String.prototype.trim` and `\S`
(restricted to the ASCII whitespace characters; snippet lines contain no
line terminators because the file was split on them). -/
def isWsJS (c : Char) : Bool :=
  c == ' ' || c == '\t' || c == '\n' || c == '\r' || c == '\x0b' || c == '\x0c'

/-- `s.trim()` from JavaScript. -/
def trimJS (l : Line) : Line :=
  ((l.dropWhile isWsJS).reverse.dropWhile isWsJS).reverse

/-- `escapeString` from the source: double every backslash, then escape every
double quote (in that order). -/
def escapeString (l : Line) : Line :=
  (l.flatMap (fun c => if c == '\\' then ['\\', '\\'] else [c])).flatMap
    (fun c => if c == '"' then ['\\', '"'] else [c])

/-- Drops `pat` from the front of `l`, or fails. -/
def stripPfx : Line → Line → Option Line
  | [], l => some l
  | _ :: _, [] => none
  | p :: ps, c :: cs => if p == c then stripPfx ps cs else none

/-- `Number(s) || 0` from the source (line 116), for decimal integer literals:
an optional minus sign followed by digits parses to its value, anything that
is not such a literal (including the empty string, which `Number` maps to the
falsy `0`) yields `0`.  Non-integer numerals are outside the inputs exercised
by the claims. -/
def numberOrZero (l : Line) : Int :=
  if l ≠ [] && l.all (fun c => c.isDigit) then
    Int.ofNat (l.foldl (fun a c => a * 10 + (c.toNat - 48)) 0)
  else
    match l with
    | '-' :: ds =>
      if ds ≠ [] && ds.all (fun c => c.isDigit) then
        -Int.ofNat (ds.foldl (fun a c => a * 10 + (c.toNat - 48)) 0)
      else 0
    | _ => 0

/-- The trigger of a snippet: `match[2]` used as a literal string, or, when
the backtick group `match[1]` is present, `new RegExp(match[1], 'm')` (a
pattern with its source text and the multiline flag), or `undefined` when
neither group matched. -/
inductive Trigger where
  | pattern (source : Line) (multiline : Bool)
  | literal (s : Line)
  | undef
deriving DecidableEq

/-- `IHSnippetHeader` (declared in `hsnippet.ts`, populated in `parser.ts`):
trigger, description, flags, plus the priority that `parse` assigns after the
header is built (`info.header.priority = priority`). -/
structure IHSnippetHeader where
  trigger : Trigger
  description : Line
  flags : Line
  priority : Int
deriving DecidableEq

/-- The four capture groups of `HEADER_REGEXP`:
group 1 the backtick-delimited pattern, group 2 the bare literal trigger,
group 3 the double-quoted description, group 4 the flag run. -/
structure HeaderMatch where
  pat : Option Line
  lit : Option Line
  desc : Option Line
  flags : Option Line
deriving DecidableEq

/-- The backtick alternative of the trigger group: an opening backtick, one or
more non-backtick characters, a closing backtick.  Returns the captured inner
text and the rest of the line. -/
def tryBacktickGroup (l : Line) : Option (Line × Line) :=
  match l with
  | c :: rest =>
    if c == bt then
      let inner := rest.takeWhile (fun x => !(x == bt))
      let after := rest.dropWhile (fun x => !(x == bt))
      if inner.isEmpty then none
      else
        match after with
        | _ :: t => some (inner, t)
        | [] => none
    else none
  | [] => none

/-- The literal alternative of the trigger group: a maximal nonempty run of
non-whitespace characters. -/
def tryLiteralGroup (l : Line) : Option (Line × Line) :=
  let w := l.takeWhile (fun c => !(isWsJS c))
  if w.isEmpty then none else some (w, l.dropWhile (fun c => !(isWsJS c)))

/-- The optional description group: a space, a double quote, one or more
non-quote characters, a closing double quote. -/
def tryDescGroup (l : Line) : Option Line × Line :=
  match l with
  | ' ' :: '"' :: t =>
    let inner := t.takeWhile (fun x => !(x == '"'))
    let after := t.dropWhile (fun x => !(x == '"'))
    if inner.isEmpty then (none, l)
    else
      match after with
      | _ :: t2 => (some inner, t2)
      | [] => (none, l)
  | _ => (none, l)

/-- A flag character: the fixed alphabet `[AMiwb]` of `HEADER_REGEXP`. -/
def isFlagChar (c : Char) : Bool :=
  c == 'A' || c == 'M' || c == 'i' || c == 'w' || c == 'b'

/-- The optional flags group: a space followed by a (possibly empty) greedy
run of flag characters. -/
def tryFlagsGroup (l : Line) : Option Line :=
  match l with
  | ' ' :: t => some (t.takeWhile isFlagChar)
  | _ => none

/-- Matching of `HEADER_REGEXP` against a line:
the literal keyword `snippet`, an optional space, an optional trigger group
(backtick pattern preferred over bare literal), an optional quoted
description, an optional flag run.  Every component after the keyword is
optional so no later component can force backtracking into an earlier greedy
choice; the match fails exactly when the line does not start with `snippet`. -/
def matchHeaderRegex (l : Line) : Option HeaderMatch :=
  match stripPfx (str "snippet") l with
  | none => none
  | some r0 =>
    let r1 := match r0 with
      | ' ' :: t => t
      | _ => r0
    match tryBacktickGroup r1 with
    | some (p, r2) =>
      let (desc, r3) := tryDescGroup r2
      some ⟨some p, none, desc, tryFlagsGroup r3⟩
    | none =>
      match tryLiteralGroup r1 with
      | some (w, r2) =>
        let (desc, r3) := tryDescGroup r2
        some ⟨none, some w, desc, tryFlagsGroup r3⟩
      | none =>
        let (desc, r3) := tryDescGroup r1
        some ⟨none, none, desc, tryFlagsGroup r3⟩

/-- Whether a line ends with the `$` anchor (`match[1].endsWith('$')`). -/
def endsDollar (l : Line) : Bool := l.getLast? == some '$'

/-- `parseSnippetHeader` from the source: match `HEADER_REGEXP`, throw
`Invalid snippet header` when it fails; if the pattern group matched, append
a `$` anchor unless already present and compile with the multiline flag,
otherwise use the literal group (possibly undefined) as the trigger;
description and flags default to the empty string. -/
def parseSnippetHeader (l : Line) : Except Line IHSnippetHeader :=
  match matchHeaderRegex l with
  | none => Except.error (str "Invalid snippet header")
  | some m =>
    let trigger : Trigger :=
      match m.pat with
      | some p => Trigger.pattern (if endsDollar p then p else p ++ ['$']) true
      | none =>
        match m.lit with
        | some w => Trigger.literal w
        | none => Trigger.undef
    Except.ok ⟨trigger, m.desc.getD [], m.flags.getD [], 0⟩

/-- One JavaScript statement emitted by `parseSnippet` into the generated
generator-function source (one constructor per `script.push(...)` site). -/
inductive Stmt where
  | funHeader
  | declRv
  | declResult
  | declBlockResults
  | pushText (s : Line)
  | pushNewline
  | resetRv
  | pushBlockRef
  | pushBlockResult
  | userCode (s : Line)
  | ret
  | closeBrace
deriving DecidableEq

/-- The exact line of JavaScript text that the source pushes for each
statement (braces written with their code-point escapes). -/
def render : Stmt → Line
  | Stmt.funHeader => str "(t, m, w, path, snip) => \x7b"
  | Stmt.declRv => str "let rv = \"\";"
  | Stmt.declResult => str "let _result = [];"
  | Stmt.declBlockResults => str "let _blockResults = [];"
  | Stmt.pushText s => str "_result.push(\"" ++ escapeString s ++ str "\");"
  | Stmt.pushNewline => str "_result.push(\"\\n\");"
  | Stmt.resetRv => str "rv = \"\";"
  | Stmt.pushBlockRef => str "_result.push(\x7bblock: _blockResults.length\x7d);"
  | Stmt.pushBlockResult => str "_blockResults.push(String(rv));"
  | Stmt.userCode s => s
  | Stmt.ret => str "return [_result, _blockResults];"
  | Stmt.closeBrace => str "\x7d"

/-- One element pushed onto `_result` by the generated code: a literal text
chunk or a block-slot reference. -/
inductive Seg where
  | text (s : Line)
  | block (i : Nat)
deriving DecidableEq

/-- The mutable state of an invocation of the generated generator function.
A field holds `none` while its `let` declaration has not executed (accessing
it then raises a `ReferenceError`, which aborts the invocation). -/
structure GenState where
  rv : Option Line
  result : Option (List Seg)
  blockResults : Option (List Line)
deriving DecidableEq

/-- The state at function entry: nothing declared yet. -/
def initGenState : GenState := ⟨none, none, none⟩

/-- JavaScript evaluation of the emitted statement forms, one statement per
list entry, returning the pair that `return [_result, _blockResults];`
produces, or `none` when the invocation throws (a variable is accessed before
its declaration) or falls off the end without returning.  The effect of a user
script line on `rv` is the oracle `uf` (the source emits the user text
verbatim; in the generated scope a block's statements conventionally read and
write `rv` only). -/
def execStmts (uf : Line → Line → Line) : List Stmt → GenState → Option (List Seg × List Line)
  | [], _ => none
  | Stmt.funHeader :: r, st => execStmts uf r st
  | Stmt.closeBrace :: r, st => execStmts uf r st
  | Stmt.declRv :: r, st => execStmts uf r { st with rv := some [] }
  | Stmt.declResult :: r, st => execStmts uf r { st with result := some [] }
  | Stmt.declBlockResults :: r, st => execStmts uf r { st with blockResults := some [] }
  | Stmt.pushText s :: r, st =>
    match st.result with
    | some res => execStmts uf r { st with result := some (res ++ [Seg.text s]) }
    | none => none
  | Stmt.pushNewline :: r, st =>
    match st.result with
    | some res => execStmts uf r { st with result := some (res ++ [Seg.text ['\n']]) }
    | none => none
  | Stmt.resetRv :: r, st =>
    match st.rv with
    | some _ => execStmts uf r { st with rv := some [] }
    | none => none
  | Stmt.pushBlockRef :: r, st =>
    match st.result, st.blockResults with
    | some res, some brs =>
      execStmts uf r { st with result := some (res ++ [Seg.block brs.length]) }
    | _, _ => none
  | Stmt.pushBlockResult :: r, st =>
    match st.blockResults, st.rv with
    | some brs, some v => execStmts uf r { st with blockResults := some (brs ++ [v]) }
    | _, _ => none
  | Stmt.userCode c :: r, st =>
    match st.rv with
    | some v => execStmts uf r { st with rv := some (uf c v) }
    | none => none
  | Stmt.ret :: _, st =>
    match st.result, st.blockResults with
    | some res, some brs => some (res, brs)
    | _, _ => none

/-- A user script line whose evaluation leaves `rv` unchanged (the semantics
of a side-effect-free expression statement such as `1+1`). -/
def ufId : Line → Line → Line := fun _ rv => rv

/-- Termination measure for the line-consuming loops: total character count
plus one per line (a split pushes back a line at least two characters
shorter than the one consumed). -/
def msr (ls : List Line) : Nat := ls.foldr (fun l acc => l.length + 1 + acc) 0

/-- The body-scanning `while` loop of `parseSnippet` (source lines 52 to 80),
fuelled: returns the emitted statements and the lines remaining after the
loop, or `none` when the fuel runs out (never happens for fuel above `msr`).
In TEXT mode (`isCode = false`) a line starting with `endsnippet` stops the
loop; a line with the delimiter is split at the first regex match, the part
before it is emitted as a text append followed by a block-accumulator reset,
and the rejoined remainder is pushed back with the mode switched to SCRIPT;
a plain line is emitted as a text append plus a newline append.  In SCRIPT
mode (`isCode = true`) a plain line is emitted verbatim (trimmed); a line
with the delimiter emits the trimmed part before it, pushes back the rejoined
remainder, then emits the block-reference append and the block-result append
and reverts to TEXT mode. -/
def bodyLoopF : Nat → Bool → List Line → Option (List Stmt × List Line)
  | 0, _, _ => none
  | _ + 1, _, [] => some ([], [])
  | f + 1, true, line :: rest =>
    if containsDelim line then
      let parts := splitDelim line
      match bodyLoopF f false (joinDelim parts.tail :: rest) with
      | some (s, rem) =>
        some (Stmt.userCode (trimJS (parts.headD [])) :: Stmt.pushBlockRef ::
          Stmt.pushBlockResult :: s, rem)
      | none => none
    else
      match bodyLoopF f true rest with
      | some (s, rem) => some (Stmt.userCode (trimJS line) :: s, rem)
      | none => none
  | f + 1, false, line :: rest =>
    if startsWithL (str "endsnippet") line then some ([], rest)
    else if containsDelim line then
      let parts := splitDelim line
      match bodyLoopF f true (joinDelim parts.tail :: rest) with
      | some (s, rem) => some (Stmt.pushText (parts.headD []) :: Stmt.resetRv :: s, rem)
      | none => none
    else
      match bodyLoopF f false rest with
      | some (s, rem) => some (Stmt.pushText line :: Stmt.pushNewline :: s, rem)
      | none => none

/-- The body loop run with enough fuel to consume all its lines. -/
def bodyLoop (isCode : Bool) (lines : List Line) : Option (List Stmt × List Line) :=
  bodyLoopF (msr lines + 1) isCode lines

/-- The full statement list of one generated generator function: the fixed
four-statement prologue, the loop-emitted statements, the unconditional
`script.pop()` (which removes the last element whatever it is), then the
return statement and the closing brace. -/
def mkStmts (loopStmts : List Stmt) : List Stmt :=
  ([Stmt.funHeader, Stmt.declRv, Stmt.declResult, Stmt.declBlockResults] ++
      loopStmts).dropLast ++ [Stmt.ret, Stmt.closeBrace]

/-- `IHSnippetInfo` from the source: the parsed header, the generated body
(kept in statement form; its text is `renderBody`), and the context filter
that `parse` attaches afterwards. -/
structure SnippetInfo where
  header : IHSnippetHeader
  stmts : List Stmt
  contextFilter : Option Line
deriving DecidableEq

/-- `parseSnippet` from the source: parse the header line (propagating its
failure), run the body loop over the remaining lines, and assemble the
generator-function statements with the trailing pop applied. -/
def parseSnippet (headerLine : Line) (lines : List Line) :
    Except Line (SnippetInfo × List Line) :=
  match parseSnippetHeader headerLine with
  | Except.error e => Except.error e
  | Except.ok h =>
    match bodyLoop false lines with
    | some (s, rem) => Except.ok (⟨h, mkStmts s, none⟩, rem)
    | none => Except.error (str "out of fuel")

/-- The accumulating state of the top-level `parse` loop: the snippet infos
collected so far, the preamble script lines pushed so far, and the pending
priority and context directives. -/
structure ParseSt where
  infos : List SnippetInfo
  script : List Line
  priority : Int
  context : Option Line
deriving DecidableEq

/-- The initial state of `parse`: no snippets, no preamble, priority `0`,
no context. -/
def initParseSt : ParseSt := ⟨[], [], 0, none⟩

/-- The top-level `while` loop of `parse` (source lines 102 to 128), fuelled.
Inside a `global` block (`isCode = true`) a line starting with `endglobal`
leaves the block and any other line is pushed onto the preamble script.
Otherwise: a `#` line is skipped; a line starting with `global` enters the
block; `priority ` and `context ` directives store their trailing value; a
line matching `HEADER_REGEXP` is compiled by `parseSnippet`, receives the
pending priority and context, and both directives reset; any other line is
ignored. -/
def parseLoopF : Nat → Bool → List Line → ParseSt → Except Line ParseSt
  | 0, _, _, _ => Except.error (str "out of fuel")
  | _ + 1, _, [], st => Except.ok st
  | f + 1, true, line :: rest, st =>
    if startsWithL (str "endglobal") line then parseLoopF f false rest st
    else parseLoopF f true rest { st with script := st.script ++ [line] }
  | f + 1, false, line :: rest, st =>
    if startsWithL (str "#") line then parseLoopF f false rest st
    else if startsWithL (str "global") line then parseLoopF f true rest st
    else if startsWithL (str "priority ") line then
      parseLoopF f false rest
        { st with priority := numberOrZero (trimJS (line.drop (str "priority ").length)) }
    else if startsWithL (str "context ") line then
      parseLoopF f false rest
        { st with context :=
            let c := trimJS (line.drop (str "context ").length)
            if c.isEmpty then none else some c }
    else if (matchHeaderRegex line).isSome then
      match parseSnippet line rest with
      | Except.error e => Except.error e
      | Except.ok (info, rem) =>
        parseLoopF f false rem
          { st with
            infos := st.infos ++
              [{ info with
                  header := { info.header with priority := st.priority },
                  contextFilter := st.context }],
            priority := 0,
            context := none }
    else parseLoopF f false rest st

/-- `content.split(/\r?\n/)` from the source: split at every newline,
absorbing one carriage return immediately before it. -/
def splitLines : Line → List Line
  | [] => [[]]
  | '\r' :: '\n' :: rest => [] :: splitLines rest
  | '\n' :: rest => [] :: splitLines rest
  | c :: rest => consHead c (splitLines rest)

/-- The pure parsing phase of `parse`: split the content into lines and run
the top-level loop (with enough fuel) from the initial state.  This is
everything `parse` does before assembling and executing the compilation
unit. -/
def parsePhase (content : String) : Except Line ParseSt :=
  parseLoopF (msr (splitLines (str content)) + 1) false (splitLines (str content)) initParseSt

/-- Joins script lines with newlines (`script.join('\n')` from the source). -/
def joinNL : List Line → Line
  | [] => []
  | [p] => p
  | p :: ps => p ++ '\n' :: joinNL ps

/-- The generated generator-function source text of one snippet. -/
def renderBody (stmts : List Stmt) : Line := joinNL (stmts.map render)

/-- The assembled compilation unit (`script.join('\n')` after source lines
130 to 139): the preamble lines, then a return of the array literal with one
object per snippet holding the optional context-filter wrapper and the
generator-function source. -/
def assembleScript (st : ParseSt) : Line :=
  joinNL (st.script ++ [str "return ["] ++
    (st.infos.flatMap fun s =>
      [str "\x7b"] ++
      (match s.contextFilter with
       | some c => [str "contextFilter: (context) => (" ++ c ++ str "),"]
       | none => []) ++
      [str "generatorFunction: " ++ renderBody s.stmts] ++
      [str "\x7d,"]) ++
    [str "]"])

/-- The duplicate-binding rewrite of the catch block (source line 168). -/
def dupDeclMsg (raw : Line) : Line :=
  str "Variable redeclaration detected in global block. Please check for duplicate variable declarations like \x27let\x27, \x27const\x27, or \x27var\x27 statements. Original error: " ++ raw

/-- The undefined-property rewrite mentioning `document` (source line 171). -/
def docPropMsg (raw : Line) : Line :=
  str "Trying to access \x27document\x27 property of undefined. This usually happens when \x27vscode.window.activeTextEditor\x27 is null (no active editor). Consider adding null checks: \x27let editor = vscode.window.activeTextEditor; if (editor) \x7b let document = editor.document; \x7d\x27. Original error: " ++ raw

/-- The general undefined-property rewrite (source line 173). -/
def undefObjMsg (raw : Line) : Line :=
  str "Accessing property of undefined object. This often happens when variables are not properly initialized or when VS Code objects are not available during parsing. Original error: " ++ raw

/-- The undefined-variable rewrite (source line 176). -/
def notDefinedMsg (raw : Line) : Line :=
  str "Undefined variable detected. Make sure all variables used in your snippets are properly declared in the global block. Original error: " ++ raw

/-- The catch block of `parse` (source lines 165 to 177): pattern-match the
raw failure text for duplicate-binding, undefined-property-access (with a
special case naming `document`), and undefined-reference errors, rewriting
the message with a human-actionable explanation; otherwise keep it as is. -/
def enrichMessage (raw : Line) : Line :=
  if containsStr (str "has already been declared") raw then dupDeclMsg raw
  else if containsStr (str "Cannot read properties of undefined") raw then
    if containsStr (str "document") raw then docPropMsg raw else undefObjMsg raw
  else if containsStr (str "is not defined") raw then notDefinedMsg raw
  else raw

/-- One element of the array the executed compilation unit evaluates to
(`IHSnippetParseResult` from the source); the runtime generator function
itself is an opaque value of type `α`. -/
structure GenArtifact (α : Type) where
  contextFilter : Option α
  generatorFunction : α
deriving DecidableEq

/-- `HSnippet` as constructed at source line 183: the parsed header zipped
with the executed artifact. -/
structure HSnippetM (α : Type) where
  header : IHSnippetHeader
  generatorFunction : α
  contextFilter : Option α
deriving DecidableEq

/-- The final zip of `parse` (source lines 182 to 184):
`snippetInfos.map((s, i) => new HSnippet(s.header, generators[i]...))`;
an out-of-range index reads a property of `undefined` and throws. -/
def zipGenerators {α : Type} : List SnippetInfo → List (GenArtifact α) →
    Except Line (List (HSnippetM α))
  | [], _ => Except.ok []
  | _ :: _, [] =>
    Except.error (str "TypeError: Cannot read properties of undefined (reading \x27generatorFunction\x27)")
  | s :: ss, g :: gs =>
    match zipGenerators ss gs with
    | Except.ok r => Except.ok (⟨s.header, g.generatorFunction, g.contextFilter⟩ :: r)
    | Except.error e => Except.error e

/-- `parse` from the source, end to end: the pure parsing phase, then the
single execution of the assembled compilation unit — modelled by the oracle
`runner`, which receives the assembled script text (`new Function` plus the
call cannot be evaluated inside the embedding) — then either the catch
block's re-raise with the enriched message, or the final zip against the
parsed headers. -/
def parseFull {α : Type} (content : String)
    (runner : Line → Except Line (List (GenArtifact α))) :
    Except Line (List (HSnippetM α)) :=
  match parsePhase content with
  | Except.error e => Except.error e
  | Except.ok st =>
    match runner (assembleScript st) with
    | Except.error msg =>
      Except.error (str "Failed to parse snippet code: " ++ enrichMessage msg)
    | Except.ok gens => zipGenerators st.infos gens

/-- The warning text of `safeRequire` (source line 150), without the error
object that `console.warn` receives as its second argument. -/
def requireWarning (moduleName : Line) : Line :=
  str "[HSnips] Could not require module \x27" ++ moduleName ++ str "\x27:"

/-- `safeRequire` from the source: attempt the resolution (the host `require`
is the oracle `req`); on failure return `null` and log the warning together
with the error instead of propagating.  The returned list is the console log
written during the call. -/
def safeRequire {α : Type} (req : Line → Except Line α) (moduleName : Line) :
    Option α × List (Line × Line) :=
  match req moduleName with
  | Except.ok v => (some v, [])
  | Except.error e => (none, [(requireWarning moduleName, e)])

/-- The statements emitted for a run of plain text lines (no delimiter, no
`endsnippet`): one text append and one newline append per line. -/
def emitPlain : List Line → List Stmt
  | [] => []
  | l :: ls => Stmt.pushText l :: Stmt.pushNewline :: emitPlain ls

/-- The end-to-end example source of the specification. -/
def c1src : String := "snippet foo \"Foo\"\nhello ``1+1`` world\nendsnippet"

/-- A snippet with an empty body: the unconditional trailing pop removes the
`_blockResults` declaration instead of a newline append. -/
def c2src : String := "snippet foo\nendsnippet"

/-- The specification's malformed-header example: an unbalanced backtick
group in the trigger position. -/
def c3src : String := "snippet `x \"desc\"\nendsnippet"

/-- A body whose `endsnippet` terminator sits on the same line directly after
a block terminator: the pushed-back remainder is the `endsnippet` line, so
the loop breaks right after the block statements and the trailing pop removes
the block-result push. -/
def c6src : String := "snippet foo\nhi``1+1``endsnippet"

/-- Two snippets separated by one `priority 5` directive, plus a third with
no directive. -/
def c7srcA : String :=
  "snippet a\nendsnippet\npriority 5\nsnippet b\nendsnippet\nsnippet c\nendsnippet"

/-- A `context` directive followed by two snippets. -/
def c7srcB : String := "context foo\nsnippet a\nendsnippet\nsnippet b\nendsnippet"

/-- A file whose final snippet body has no closing `endsnippet` line. -/
def c10src : String := "snippet foo\nhello\nworld"

/-- The segment sequence an all-text body produces: one text segment per
line with a newline text segment between consecutive lines (the trailing
newline append having been popped). -/
def plainSegs : List Line → List Seg
  | [] => []
  | [l] => [Seg.text l]
  | l :: ls => Seg.text l :: Seg.text ['\n'] :: plainSegs ls

/-- Concatenation of the literal text of a segment sequence. -/
def concatSegs : List Seg → Line
  | [] => []
  | Seg.text s :: rest => s ++ concatSegs rest
  | Seg.block _ :: rest => concatSegs rest

/-- Whether a segment sequence holds no block-result references. -/
def noBlockSegs (segs : List Seg) : Bool :=
  segs.all fun s =>
    match s with
    | Seg.block _ => false
    | _ => true

/-- JavaScript evaluation of the contents of a double-quoted string literal:
a backslash escape denotes its escaped character (only the escapes that
`escapeString` produces occur in generated literals). -/
def jsUnescapeDQ : Line → Line
  | [] => []
  | [c] => [c]
  | c :: c2 :: rest =>
    if c = '\\' then c2 :: jsUnescapeDQ rest
    else c :: jsUnescapeDQ (c2 :: rest)

theorem splitDelim_ne_nil (l : Line) : splitDelim l ≠ [] := by
  induction l using splitDelim.induct with
  | case1 => simp [splitDelim]
  | case2 c => simp [splitDelim]
  | case3 c1 c2 rest h ih => simp [splitDelim, h]
  | case4 c1 c2 rest h ih =>
    simp only [splitDelim, if_neg h]
    cases splitDelim (c2 :: rest) with
    | nil => simp [consHead]
    | cons p ps => simp [consHead]

theorem joinDelim_consHead (c : Char) (ps : List Line) :
    joinDelim (consHead c ps) = c :: joinDelim ps := by
  match ps with
  | [] => rfl
  | [p] => rfl
  | p :: q :: ps => simp [consHead, joinDelim]

theorem joinDelim_splitDelim (l : Line) : joinDelim (splitDelim l) = l := by
  induction l using splitDelim.induct with
  | case1 => rfl
  | case2 c => rfl
  | case3 c1 c2 rest h ih =>
    obtain ⟨p, ps, hps⟩ : ∃ p ps, splitDelim rest = p :: ps := by
      cases hsd : splitDelim rest with
      | nil => exact absurd hsd (splitDelim_ne_nil rest)
      | cons p ps => exact ⟨p, ps, rfl⟩
    have hc : c1 = bt ∧ c2 = bt := by
      simp only [Bool.and_eq_true, beq_iff_eq] at h
      exact ⟨h.1, h.2.1⟩
    rw [hps] at ih
    simp only [splitDelim, if_pos h, hps, joinDelim, List.nil_append, ih]
    rw [hc.1, hc.2]
  | case4 c1 c2 rest h ih =>
    simp only [splitDelim, if_neg h, joinDelim_consHead, ih]

theorem consHead_length (c : Char) (ps : List Line) (h : ps ≠ []) :
    (consHead c ps).length = ps.length := by
  cases ps with
  | nil => exact absurd rfl h
  | cons p ps => rfl

theorem joinDelim_tail_lt (l : Line) (h : l ≠ []) :
    (joinDelim (splitDelim l).tail).length < l.length := by
  have hj := joinDelim_splitDelim l
  cases hsd : splitDelim l with
  | nil => exact absurd hsd (splitDelim_ne_nil l)
  | cons p ps =>
    cases ps with
    | nil =>
      simp only [List.tail_cons, joinDelim, List.length_nil]
      cases l with
      | nil => exact absurd rfl h
      | cons c cs => simp
    | cons q ps =>
      rw [hsd] at hj
      have : (p ++ bt :: bt :: joinDelim (q :: ps)).length = l.length := by
        rw [← hj]; rfl
      simp only [List.length_append, List.length_cons] at this
      simp only [List.tail_cons]
      omega

theorem isDelimAt_cons (c : Char) (l : Line) (i : Nat) :
    isDelimAt (c :: l) (i + 1) = isDelimAt l i := by
  simp [isDelimAt, List.drop_succ_cons]

theorem boundaries_consHead (c : Char) (ps : List Line) (h : ps ≠ []) :
    boundaries (consHead c ps) = (boundaries ps).map (fun i => i + 1) := by
  match ps with
  | [] => exact absurd rfl h
  | [p] => simp [consHead, boundaries]
  | p :: q :: rs =>
    simp only [consHead, boundaries, List.length_cons, List.map_map, List.map_cons]
    have hm : List.map ((fun i => i + 1) ∘ fun i => i + (List.length p + 2))
        (boundaries (q :: rs)) =
        List.map (fun i => i + (List.length p + 1 + 2)) (boundaries (q :: rs)) := by
      apply List.map_congr_left
      intro j _
      simp only [Function.comp_apply]
      omega
    rw [hm]

theorem isDelimAt_of_mem_boundaries (l : Line) :
    ∀ i ∈ boundaries (splitDelim l), isDelimAt l i = true := by
  induction l using splitDelim.induct with
  | case1 => simp [splitDelim, boundaries]
  | case2 c => simp [splitDelim, boundaries]
  | case3 c1 c2 rest h ih =>
    obtain ⟨p, ps, hps⟩ : ∃ p ps, splitDelim rest = p :: ps := by
      cases hsd : splitDelim rest with
      | nil => exact absurd hsd (splitDelim_ne_nil rest)
      | cons p ps => exact ⟨p, ps, rfl⟩
    have hc : c1 = bt ∧ c2 = bt ∧ lookBt rest = false := by
      simp only [Bool.and_eq_true, beq_iff_eq, Bool.not_eq_true'] at h
      exact ⟨h.1, h.2.1, h.2.2⟩
    intro i hi
    simp only [splitDelim, if_pos h, hps, boundaries, List.length_nil, List.mem_cons,
      List.mem_map] at hi
    rcases hi with rfl | ⟨j, hj, rfl⟩
    · simp [isDelimAt, hc.1, hc.2.1, hc.2.2]
    · have hr := ih j (by rw [hps]; exact hj)
      rw [show j + (0 + 2) = j + 1 + 1 from by omega, isDelimAt_cons, isDelimAt_cons]
      exact hr
  | case4 c1 c2 rest h ih =>
    intro i hi
    simp only [splitDelim, if_neg h] at hi
    rw [boundaries_consHead _ _ (splitDelim_ne_nil _)] at hi
    simp only [List.mem_map] at hi
    obtain ⟨j, hj, rfl⟩ := hi
    rw [isDelimAt_cons]
    exact ih j hj

theorem mem_boundaries_of_isDelimAt (l : Line) :
    ∀ i, isDelimAt l i = true → i ∈ boundaries (splitDelim l) := by
  induction l using splitDelim.induct with
  | case1 =>
    intro i hi
    simp [isDelimAt] at hi
  | case2 c =>
    intro i hi
    match i with
    | 0 => simp [isDelimAt] at hi
    | i + 1 =>
      rw [isDelimAt_cons] at hi
      simp [isDelimAt] at hi
  | case3 c1 c2 rest h ih =>
    obtain ⟨p, ps, hps⟩ : ∃ p ps, splitDelim rest = p :: ps := by
      cases hsd : splitDelim rest with
      | nil => exact absurd hsd (splitDelim_ne_nil rest)
      | cons p ps => exact ⟨p, ps, rfl⟩
    have hc : c1 = bt ∧ c2 = bt ∧ lookBt rest = false := by
      simp only [Bool.and_eq_true, beq_iff_eq, Bool.not_eq_true'] at h
      exact ⟨h.1, h.2.1, h.2.2⟩
    intro i hi
    simp only [splitDelim, if_pos h, hps, boundaries, List.length_nil, List.mem_cons,
      List.mem_map]
    match i with
    | 0 => left; rfl
    | 1 =>
      exfalso
      rw [show (1 : Nat) = 0 + 1 from rfl, isDelimAt_cons] at hi
      cases rest with
      | nil => simp [isDelimAt] at hi
      | cons r0 r1 =>
        simp only [isDelimAt, List.drop_zero, Bool.and_eq_true, beq_iff_eq] at hi
        have h2 := hc.2.2
        rw [show lookBt (r0 :: r1) = (r0 == bt) from rfl, hi.2.1] at h2
        simp at h2
    | j + 2 =>
      right
      refine ⟨j, ?_, by omega⟩
      rw [← hps]
      apply ih
      rw [show j + 2 = j + 1 + 1 from rfl, isDelimAt_cons, isDelimAt_cons] at hi
      exact hi
  | case4 c1 c2 rest h ih =>
    intro i hi
    simp only [splitDelim, if_neg h]
    rw [boundaries_consHead _ _ (splitDelim_ne_nil _)]
    simp only [List.mem_map]
    match i with
    | 0 =>
      exfalso
      apply h
      simpa [isDelimAt] using hi
    | j + 1 =>
      rw [isDelimAt_cons] at hi
      exact ⟨j, ih j hi, rfl⟩

theorem containsDelim_ne_nil {l : Line} (h : containsDelim l = true) : l ≠ [] := by
  intro h'
  subst h'
  simp [containsDelim, containsStr, dd, List.isPrefixOf] at h

theorem bodyLoopF_isSome :
    ∀ (f : Nat) (ic : Bool) (ls : List Line), msr ls < f → (bodyLoopF f ic ls).isSome = true := by
  intro f
  induction f with
  | zero => intro ic ls h; exact absurd h (by omega)
  | succ f ih =>
    intro ic ls h
    cases ls with
    | nil => cases ic <;> simp [bodyLoopF]
    | cons line rest =>
      have h2 : msr (line :: rest) = line.length + 1 + msr rest := rfl
      cases ic with
      | true =>
        simp only [bodyLoopF]
        cases hcd : containsDelim line with
        | false =>
          rw [if_neg (by simp)]
          obtain ⟨⟨s, rem⟩, hx⟩ :=
            Option.isSome_iff_exists.mp (ih true rest (by omega))
          rw [hx]
          simp
        | true =>
          rw [if_pos rfl]
          have hlt : (joinDelim (splitDelim line).tail).length < line.length :=
            joinDelim_tail_lt line (containsDelim_ne_nil hcd)
          have h3 : msr (joinDelim (splitDelim line).tail :: rest) =
              (joinDelim (splitDelim line).tail).length + 1 + msr rest := rfl
          obtain ⟨⟨s, rem⟩, hx⟩ :=
            Option.isSome_iff_exists.mp
              (ih false (joinDelim (splitDelim line).tail :: rest) (by omega))
          rw [hx]
          simp
      | false =>
        simp only [bodyLoopF]
        cases hes : startsWithL (str "endsnippet") line with
        | true =>
          rw [if_pos rfl]
          simp
        | false =>
          rw [if_neg (by simp)]
          cases hcd : containsDelim line with
          | false =>
            rw [if_neg (by simp)]
            obtain ⟨⟨s, rem⟩, hx⟩ :=
              Option.isSome_iff_exists.mp (ih false rest (by omega))
            rw [hx]
            simp
          | true =>
            rw [if_pos rfl]
            have hlt : (joinDelim (splitDelim line).tail).length < line.length :=
              joinDelim_tail_lt line (containsDelim_ne_nil hcd)
            have h3 : msr (joinDelim (splitDelim line).tail :: rest) =
                (joinDelim (splitDelim line).tail).length + 1 + msr rest := rfl
            obtain ⟨⟨s, rem⟩, hx⟩ :=
              Option.isSome_iff_exists.mp
                (ih true (joinDelim (splitDelim line).tail :: rest) (by omega))
            rw [hx]
            simp

theorem bodyLoopF_msr_le :
    ∀ (f : Nat) (ic : Bool) (ls : List Line) (s : List Stmt) (rem : List Line),
      bodyLoopF f ic ls = some (s, rem) → msr rem ≤ msr ls := by
  intro f
  induction f with
  | zero => intro ic ls s rem h; simp [bodyLoopF] at h
  | succ f ih =>
    intro ic ls s rem h
    cases ls with
    | nil =>
      cases ic <;>
        (simp only [bodyLoopF, Option.some.injEq, Prod.mk.injEq] at h
         rw [← h.2])
    | cons line rest =>
      have h2 : msr (line :: rest) = line.length + 1 + msr rest := rfl
      cases ic with
      | true =>
        simp only [bodyLoopF] at h
        cases hcd : containsDelim line with
        | false =>
          rw [if_neg (by simp [hcd])] at h
          cases hb : bodyLoopF f true rest with
          | none => rw [hb] at h; simp at h
          | some x =>
            obtain ⟨s', rem'⟩ := x
            rw [hb] at h
            simp only [Option.some.injEq, Prod.mk.injEq] at h
            have := ih true rest s' rem' hb
            rw [← h.2]
            omega
        | true =>
          rw [if_pos hcd] at h
          have hlt : (joinDelim (splitDelim line).tail).length < line.length :=
            joinDelim_tail_lt line (containsDelim_ne_nil hcd)
          have h3 : msr (joinDelim (splitDelim line).tail :: rest) =
              (joinDelim (splitDelim line).tail).length + 1 + msr rest := rfl
          cases hb : bodyLoopF f false (joinDelim (splitDelim line).tail :: rest) with
          | none => rw [hb] at h; simp at h
          | some x =>
            obtain ⟨s', rem'⟩ := x
            rw [hb] at h
            simp only [Option.some.injEq, Prod.mk.injEq] at h
            have := ih false _ s' rem' hb
            rw [← h.2]
            omega
      | false =>
        simp only [bodyLoopF] at h
        cases hes : startsWithL (str "endsnippet") line with
        | true =>
          rw [if_pos hes] at h
          simp only [Option.some.injEq, Prod.mk.injEq] at h
          rw [← h.2]
          omega
        | false =>
          rw [if_neg (by simp [hes])] at h
          cases hcd : containsDelim line with
          | false =>
            rw [if_neg (by simp [hcd])] at h
            cases hb : bodyLoopF f false rest with
            | none => rw [hb] at h; simp at h
            | some x =>
              obtain ⟨s', rem'⟩ := x
              rw [hb] at h
              simp only [Option.some.injEq, Prod.mk.injEq] at h
              have := ih false rest s' rem' hb
              rw [← h.2]
              omega
          | true =>
            rw [if_pos hcd] at h
            have hlt : (joinDelim (splitDelim line).tail).length < line.length :=
              joinDelim_tail_lt line (containsDelim_ne_nil hcd)
            have h3 : msr (joinDelim (splitDelim line).tail :: rest) =
                (joinDelim (splitDelim line).tail).length + 1 + msr rest := rfl
            cases hb : bodyLoopF f true (joinDelim (splitDelim line).tail :: rest) with
            | none => rw [hb] at h; simp at h
            | some x =>
              obtain ⟨s', rem'⟩ := x
              rw [hb] at h
              simp only [Option.some.injEq, Prod.mk.injEq] at h
              have := ih true _ s' rem' hb
              rw [← h.2]
              omega

theorem parseSnippetHeader_ok (l : Line) (h : (matchHeaderRegex l).isSome = true) :
    ∃ hd, parseSnippetHeader l = Except.ok hd := by
  obtain ⟨m, hm⟩ := Option.isSome_iff_exists.mp h
  unfold parseSnippetHeader
  rw [hm]
  exact ⟨_, rfl⟩

theorem parseSnippet_ok (l : Line) (ls : List Line) (h : (matchHeaderRegex l).isSome = true) :
    ∃ info rem, parseSnippet l ls = Except.ok (info, rem) ∧ msr rem ≤ msr ls := by
  obtain ⟨hd, hhd⟩ := parseSnippetHeader_ok l h
  obtain ⟨⟨s, rem⟩, hbs⟩ :=
    Option.isSome_iff_exists.mp (bodyLoopF_isSome (msr ls + 1) false ls (by omega))
  refine ⟨⟨hd, mkStmts s, none⟩, rem, ?_, bodyLoopF_msr_le _ _ _ _ _ hbs⟩
  simp only [parseSnippet, hhd, bodyLoop, hbs]

theorem parseLoopF_ok :
    ∀ (f : Nat) (ic : Bool) (ls : List Line) (st : ParseSt), msr ls < f →
      ∃ st', parseLoopF f ic ls st = Except.ok st' := by
  intro f
  induction f with
  | zero => intro ic ls st h; exact absurd h (by omega)
  | succ f ih =>
    intro ic ls st h
    cases ls with
    | nil => cases ic <;> exact ⟨st, rfl⟩
    | cons line rest =>
      have h2 : msr (line :: rest) = line.length + 1 + msr rest := rfl
      cases ic with
      | true =>
        simp only [parseLoopF]
        cases hg : startsWithL (str "endglobal") line with
        | true =>
          rw [if_pos rfl]
          exact ih false rest st (by omega)
        | false =>
          rw [if_neg (by simp)]
          exact ih true rest _ (by omega)
      | false =>
        simp only [parseLoopF]
        cases h1 : startsWithL (str "#") line with
        | true => rw [if_pos rfl]; exact ih false rest st (by omega)
        | false =>
        rw [if_neg (by simp)]
        cases hg : startsWithL (str "global") line with
        | true => rw [if_pos rfl]; exact ih true rest st (by omega)
        | false =>
        rw [if_neg (by simp)]
        cases hp : startsWithL (str "priority ") line with
        | true => rw [if_pos rfl]; exact ih false rest _ (by omega)
        | false =>
        rw [if_neg (by simp)]
        cases hcx : startsWithL (str "context ") line with
        | true => rw [if_pos rfl]; exact ih false rest _ (by omega)
        | false =>
        rw [if_neg (by simp)]
        cases hh : (matchHeaderRegex line).isSome with
        | false => rw [if_neg (by simp)]; exact ih false rest st (by omega)
        | true =>
          rw [if_pos rfl]
          obtain ⟨info, rem, hps, hle⟩ := parseSnippet_ok line rest hh
          rw [hps]
          exact ih false rem _ (by omega)

theorem bodyLoopF_plain :
    ∀ (f : Nat) (ls : List Line), msr ls < f →
      (∀ l ∈ ls, startsWithL (str "endsnippet") l = false ∧ containsDelim l = false) →
      bodyLoopF f false ls = some (emitPlain ls, []) := by
  intro f
  induction f with
  | zero => intro ls h _; exact absurd h (by omega)
  | succ f ih =>
    intro ls h hall
    cases ls with
    | nil => rfl
    | cons line rest =>
      have h2 : msr (line :: rest) = line.length + 1 + msr rest := rfl
      have hl := hall line (List.mem_cons_self _ _)
      simp only [bodyLoopF]
      rw [if_neg (by simp [hl.1]), if_neg (by simp [hl.2])]
      rw [ih rest (by omega) (fun l hl' => hall l (List.mem_cons_of_mem _ hl'))]
      rfl

theorem parseLoopF_global :
    ∀ (f : Nat) (ls : List Line) (st : ParseSt), msr ls < f →
      (∀ l ∈ ls, startsWithL (str "endglobal") l = false) →
      parseLoopF f true ls st =
        Except.ok ⟨st.infos, st.script ++ ls, st.priority, st.context⟩ := by
  intro f
  induction f with
  | zero => intro ls st h _; exact absurd h (by omega)
  | succ f ih =>
    intro ls st h hall
    cases ls with
    | nil => simp only [parseLoopF, List.append_nil]
    | cons line rest =>
      have h2 : msr (line :: rest) = line.length + 1 + msr rest := rfl
      simp only [parseLoopF]
      rw [if_neg (by simp [hall line (List.mem_cons_self _ _)])]
      rw [ih rest _ (by omega) (fun l hl' => hall l (List.mem_cons_of_mem _ hl'))]
      simp

theorem escapeString_cons (c : Char) (l : Line) :
    escapeString (c :: l) =
      (if c = '\\' then ['\\', '\\'] else if c = '"' then ['\\', '"'] else [c]) ++
        escapeString l := by
  by_cases h1 : c = '\\'
  · subst h1
    simp [escapeString]
  · by_cases h2 : c = '"'
    · subst h2
      simp [escapeString]
    · simp [escapeString, h1, h2]

theorem jsUnescapeDQ_cons (c : Char) (rest : Line) (h : c ≠ '\\') :
    jsUnescapeDQ (c :: rest) = c :: jsUnescapeDQ rest := by
  cases rest with
  | nil => rfl
  | cons c2 rest2 =>
    simp only [jsUnescapeDQ]
    rw [if_neg h]

theorem jsUnescapeDQ_escapeString (l : Line) : jsUnescapeDQ (escapeString l) = l := by
  induction l with
  | nil => rfl
  | cons c l ih =>
    rw [escapeString_cons]
    by_cases h1 : c = '\\'
    · subst h1
      rw [if_pos rfl]
      show '\\' :: jsUnescapeDQ (escapeString l) = '\\' :: l
      rw [ih]
    · by_cases h2 : c = '"'
      · subst h2
        rw [if_neg (by simp), if_pos rfl]
        show '"' :: jsUnescapeDQ (escapeString l) = '"' :: l
        rw [ih]
      · rw [if_neg h1, if_neg h2]
        show jsUnescapeDQ (c :: escapeString l) = c :: l
        rw [jsUnescapeDQ_cons c _ h1, ih]

theorem exec_plain_dropLast (uf : Line → Line → Line) :
    ∀ (ls : List Line) (rv : Line) (r : List Seg) (brs : List Line), ls ≠ [] →
      execStmts uf ((emitPlain ls).dropLast ++ [Stmt.ret, Stmt.closeBrace])
        ⟨some rv, some r, some brs⟩ = some (r ++ plainSegs ls, brs) := by
  intro ls
  induction ls with
  | nil => intro rv r brs h; exact absurd rfl h
  | cons l ls ih =>
    intro rv r brs _
    cases ls with
    | nil => rfl
    | cons l2 ls2 =>
      have e : (emitPlain (l :: l2 :: ls2)).dropLast ++ [Stmt.ret, Stmt.closeBrace] =
          Stmt.pushText l :: Stmt.pushNewline ::
            ((emitPlain (l2 :: ls2)).dropLast ++ [Stmt.ret, Stmt.closeBrace]) := by
        show (Stmt.pushText l :: Stmt.pushNewline :: Stmt.pushText l2 :: Stmt.pushNewline ::
            emitPlain ls2).dropLast ++ [Stmt.ret, Stmt.closeBrace] =
          Stmt.pushText l :: Stmt.pushNewline ::
            ((Stmt.pushText l2 :: Stmt.pushNewline :: emitPlain ls2).dropLast ++
              [Stmt.ret, Stmt.closeBrace])
        rw [List.dropLast_cons₂, List.dropLast_cons₂]
        simp
      rw [e]
      show execStmts uf ((emitPlain (l2 :: ls2)).dropLast ++ [Stmt.ret, Stmt.closeBrace])
          ⟨some rv, some ((r ++ [Seg.text l]) ++ [Seg.text ['\n']]), some brs⟩ =
        some (r ++ plainSegs (l :: l2 :: ls2), brs)
      rw [ih rv ((r ++ [Seg.text l]) ++ [Seg.text ['\n']]) brs (by simp)]
      simp [plainSegs, List.append_assoc]

theorem concatSegs_plainSegs : ∀ ls, concatSegs (plainSegs ls) = joinNL ls := by
  intro ls
  induction ls using plainSegs.induct with
  | case1 => rfl
  | case2 l => simp [plainSegs, concatSegs, joinNL]
  | case3 l l2 ls ih => simp [plainSegs, concatSegs, joinNL, ih]

theorem noBlockSegs_plainSegs : ∀ ls, noBlockSegs (plainSegs ls) = true := by
  intro ls
  induction ls using plainSegs.induct with
  | case1 => rfl
  | case2 l => rfl
  | case3 l l2 ls ih => simpa [plainSegs, noBlockSegs] using ih

theorem bodyLoopF_plain_term :
    ∀ (f : Nat) (ls rest : List Line), msr ls < f →
      (∀ l ∈ ls, startsWithL (str "endsnippet") l = false ∧ containsDelim l = false) →
      bodyLoopF f false (ls ++ str "endsnippet" :: rest) = some (emitPlain ls, rest) := by
  intro f
  induction f with
  | zero => intro ls rest h _; exact absurd h (by omega)
  | succ f ih =>
    intro ls rest h hall
    cases ls with
    | nil =>
      simp only [List.nil_append, bodyLoopF]
      rw [if_pos (by decide)]
      rfl
    | cons line ls2 =>
      have h2 : msr (line :: ls2) = line.length + 1 + msr ls2 := rfl
      have hl := hall line (List.mem_cons_self _ _)
      rw [List.cons_append]
      simp only [bodyLoopF]
      rw [if_neg (by simp [hl.1]), if_neg (by simp [hl.2])]
      rw [ih ls2 rest (by omega) (fun l hm => hall l (List.mem_cons_of_mem _ hm))]
      rfl

theorem execStmts_mkStmts_plain (uf : Line → Line → Line) (ls : List Line) (h : ls ≠ []) :
    execStmts uf (mkStmts (emitPlain ls)) initGenState = some (plainSegs ls, []) := by
  have hne : emitPlain ls ≠ [] := by
    cases ls with
    | nil => exact absurd rfl h
    | cons l t => simp [emitPlain]
  unfold mkStmts
  rw [List.dropLast_append_of_ne_nil _ hne, List.append_assoc]
  show execStmts uf ((emitPlain ls).dropLast ++ [Stmt.ret, Stmt.closeBrace])
      ⟨some [], some [], some []⟩ = some (plainSegs ls, [])
  rw [exec_plain_dropLast uf ls [] [] [] h]
  simp

/-- Claim C4: in a snippet body the block delimiter is exactly two consecutive
backticks, and scanning splits only at occurrences of two backticks not
immediately followed by a third (the same `CODE_DELIMITER_REGEX` split is used
by `parseSnippet` in both TEXT and SCRIPT mode, see `bodyLoopF`): the split
parts rejoin to the original line, every cut position is such an occurrence,
and every such occurrence is a cut position. -/
theorem c4_delimiter_split (l : Line) :
    joinDelim (splitDelim l) = l ∧
    (∀ i ∈ boundaries (splitDelim l), isDelimAt l i = true) ∧
    (∀ i, isDelimAt l i = true → i ∈ boundaries (splitDelim l)) :=
  ⟨joinDelim_splitDelim l, isDelimAt_of_mem_boundaries l, mem_boundaries_of_isDelimAt l⟩

/-- Witness for C4 at a concrete line. -/
theorem c4_delimiter_split_witness :
    isDelimAt (str "a``b") 1 = true ∧ (1 : Nat) ∈ boundaries (splitDelim (str "a``b")) :=
  ⟨(c4_delimiter_split (str "a``b")).2.1 1 (by decide),
   (c4_delimiter_split (str "a``b")).2.2 1 (by decide)⟩

/-- Claim C5: a backtick-delimited pattern trigger that does not already end
in the `$` anchor is compiled with the anchor appended exactly once (the
character before the appended anchor is not itself an anchor), a pattern
already ending in the anchor is left unchanged, and in both cases the pattern
is compiled with multiline semantics. -/
theorem c5_pattern_anchor (l : Line) (m : HeaderMatch) (p : Line)
    (hm : matchHeaderRegex l = some m) (hp : m.pat = some p) :
    ∃ hd, parseSnippetHeader l = Except.ok hd ∧
      hd.trigger = Trigger.pattern (if endsDollar p then p else p ++ ['$']) true ∧
      (endsDollar p = true → hd.trigger = Trigger.pattern p true) ∧
      (endsDollar p = false →
        hd.trigger = Trigger.pattern (p ++ ['$']) true ∧
        endsDollar (p ++ ['$']) = true ∧
        endsDollar (p ++ ['$']).dropLast = false) := by
  have e : parseSnippetHeader l =
      Except.ok ⟨Trigger.pattern (if endsDollar p then p else p ++ ['$']) true,
        m.desc.getD [], m.flags.getD [], 0⟩ := by
    unfold parseSnippetHeader
    rw [hm]
    simp only [hp]
  refine ⟨_, e, rfl, ?_, ?_⟩
  · intro hd1
    simp only [if_pos hd1]
  · intro hd0
    refine ⟨by simp [hd0], ?_, ?_⟩
    · simp [endsDollar, List.getLast?_concat]
    · rw [List.dropLast_concat]
      exact hd0

/-- Witness for C5 at a concrete header line with pattern trigger `foo`. -/
theorem c5_pattern_anchor_witness :
    ∃ hd, parseSnippetHeader (str "snippet `foo` \"d\"") = Except.ok hd ∧
      hd.trigger =
        Trigger.pattern (if endsDollar (str "foo") then str "foo" else str "foo" ++ ['$'])
          true ∧
      (endsDollar (str "foo") = true → hd.trigger = Trigger.pattern (str "foo") true) ∧
      (endsDollar (str "foo") = false →
        hd.trigger = Trigger.pattern (str "foo" ++ ['$']) true ∧
        endsDollar (str "foo" ++ ['$']) = true ∧
        endsDollar (str "foo" ++ ['$']).dropLast = false) :=
  c5_pattern_anchor (str "snippet `foo` \"d\"")
    ⟨some (str "foo"), none, some (str "d"), none⟩ (str "foo") rfl rfl

/-- Claim C1 (counterexample): compiling the specification's end-to-end
example does produce exactly one snippet whose generator returns the segments
`hello `, block 0, ` world`, but the block-results sequence it returns is
`[""]`, not `["2"]`: the block code `1+1` is emitted as a bare expression
statement and never assigns `rv`, whose value (reset to the empty string at
block start) is what `_blockResults.push(String(rv))` records. -/
theorem c1_counterexample :
    ∃ st info, parsePhase c1src = Except.ok st ∧ st.infos = [info] ∧
      (execStmts ufId info.stmts initGenState).map Prod.snd = some [[]] ∧
      some [([] : Line)] ≠ some [str "2"] := by
  refine ⟨_, _, rfl, rfl, rfl, by decide⟩

/-- Claim C1 (amended): the end-to-end example compiles to exactly one
snippet whose generator — for any evaluation of the block code `1+1` that
leaves `rv` unchanged, as a side-effect-free expression statement does —
returns the segment sequence `hello `, block 0, ` world` together with the
block-results sequence `[""]`. -/
theorem c1_amended (uf : Line → Line → Line) (h : ∀ v, uf (str "1+1") v = v) :
    ∃ st info, parsePhase c1src = Except.ok st ∧ st.infos = [info] ∧
      execStmts uf info.stmts initGenState =
        some ([Seg.text (str "hello "), Seg.block 0, Seg.text (str " world")], [[]]) := by
  refine ⟨_, _, rfl, rfl, ?_⟩
  have e1 : execStmts uf [Stmt.funHeader, Stmt.declRv, Stmt.declResult,
      Stmt.declBlockResults, Stmt.pushText (str "hello "), Stmt.resetRv,
      Stmt.userCode (str "1+1"), Stmt.pushBlockRef, Stmt.pushBlockResult,
      Stmt.pushText (str " world"), Stmt.ret, Stmt.closeBrace] initGenState =
      some ([Seg.text (str "hello "), Seg.block 0, Seg.text (str " world")],
        [uf (str "1+1") []]) := rfl
  rw [h []] at e1
  exact e1

/-- Witness for C1 (amended) at the identity block semantics. -/
theorem c1_amended_witness :
    ∃ st info, parsePhase c1src = Except.ok st ∧ st.infos = [info] ∧
      execStmts ufId info.stmts initGenState =
        some ([Seg.text (str "hello "), Seg.block 0, Seg.text (str " world")], [[]]) :=
  c1_amended ufId (fun _ => rfl)

/-- Claim C2 (code bug evaluation): the claimed behaviour does hold for every
body of one or more text lines and zero script blocks — the loop emits one
text append and one newline append per line, the popped statement is the
trailing newline append, and the generator returns only text segments whose
concatenation is the body text joined with newlines (one trailing newline
removed) and no block references — but the pop is unconditional: for the
empty body (zero text lines) it removes the `let _blockResults = [];`
declaration instead, which is not a trailing newline append (the only thing
the source's own comment says the pop removes), so that generator accesses
an undeclared variable and its invocation fails instead of returning the
empty segment sequence. -/
theorem c2_empty_body_eval :
    (∀ (uf : Line → Line → Line) (f : Nat) (ls rest : List Line), ls ≠ [] → msr ls < f →
      (∀ l ∈ ls, startsWithL (str "endsnippet") l = false ∧ containsDelim l = false) →
      bodyLoopF f false (ls ++ str "endsnippet" :: rest) = some (emitPlain ls, rest) ∧
      execStmts uf (mkStmts (emitPlain ls)) initGenState = some (plainSegs ls, []) ∧
      concatSegs (plainSegs ls) = joinNL ls ∧
      noBlockSegs (plainSegs ls) = true) ∧
    (∃ st info, parsePhase c2src = Except.ok st ∧ st.infos = [info] ∧
      info.stmts =
        [Stmt.funHeader, Stmt.declRv, Stmt.declResult, Stmt.ret, Stmt.closeBrace] ∧
      Stmt.declBlockResults ∉ info.stmts ∧
      ∀ uf, execStmts uf info.stmts initGenState = none) := by
  constructor
  · intro uf f ls rest h hf hall
    exact ⟨bodyLoopF_plain_term f ls rest hf hall, execStmts_mkStmts_plain uf ls h,
      concatSegs_plainSegs ls, noBlockSegs_plainSegs ls⟩
  · refine ⟨_, _, rfl, rfl, rfl, by decide, fun uf => rfl⟩

/-- Claim C3 (counterexample): the specification's malformed-header example
(an unbalanced backtick group) does not fail — the header regex falls back to
reading the fragment as a bare literal trigger, so the file compiles to one
snippet instead of raising a header error and yielding zero snippets. -/
theorem c3_counterexample :
    ∃ st, parsePhase c3src = Except.ok st ∧ st.infos.length = 1 :=
  ⟨_, rfl, rfl⟩

/-- Claim C3 (amended): the parsing phase never fails at all: a line is
recognized as a snippet declaration exactly when it matches `HEADER_REGEXP`,
which matches every line beginning with `snippet`; `parse` guards the call to
`parseSnippet` with that same regex, so the header error is unreachable and
a line that fails the header grammar is silently skipped. -/
theorem c3_amended (content : String) : ∃ st, parsePhase content = Except.ok st :=
  parseLoopF_ok _ false _ initParseSt (by omega)

/-- Claim C6 (code bug evaluation): a body whose `endsnippet` keyword follows
a block terminator on the same line compiles to a generator whose segment
sequence references block 0 while its block-results sequence is empty: the
pushed-back remainder `endsnippet` stops the loop right after
`_result.push({block: ...})` and `_blockResults.push(String(rv))` were
emitted, and the unconditional trailing pop removes the latter, breaking the
1:1 correspondence between block references and block results. -/
theorem c6_unpaired_block_eval :
    ∃ st info, parsePhase c6src = Except.ok st ∧ st.infos = [info] ∧
      execStmts ufId info.stmts initGenState =
        some ([Seg.text (str "hi"), Seg.block 0], []) ∧
      Seg.block 0 ∈ [Seg.text (str "hi"), Seg.block 0] ∧
      ([] : List Line).length = 0 := by
  refine ⟨_, _, rfl, rfl, rfl, by decide, rfl⟩

/-- Claim C7: priority and context directives are single-use: in
`c7srcA` only the snippet immediately after `priority 5` has priority `5`,
the preceding and following snippets have priority `0`; in `c7srcB` only the
snippet immediately after `context foo` carries the context filter and the
next snippet carries none. -/
theorem c7_priority_context_single_use :
    (∃ st, parsePhase c7srcA = Except.ok st ∧
      st.infos.map (fun i => i.header.priority) = [0, 5, 0] ∧
      st.infos.map (fun i => i.contextFilter) = [none, none, none]) ∧
    (∃ st, parsePhase c7srcB = Except.ok st ∧
      st.infos.map (fun i => i.contextFilter) = [some (str "foo"), none] ∧
      st.infos.map (fun i => i.header.priority) = [0, 0]) :=
  ⟨⟨_, rfl, rfl, rfl⟩, ⟨_, rfl, rfl, rfl⟩⟩

/-- Claim C8: when the single execution of the assembled compilation unit
fails, `parse` re-raises the failure with the message enriched by
pattern-matching the raw text for duplicate-binding, undefined-property
(with a `document` special case) and undefined-reference errors, and the
whole file's compilation aborts with an error — no snippet list is
returned. -/
theorem c8_execution_failure_aborts {α : Type} (content : String)
    (runner : Line → Except Line (List (GenArtifact α))) (st : ParseSt) (msg : Line)
    (hst : parsePhase content = Except.ok st)
    (hrun : runner (assembleScript st) = Except.error msg) :
    parseFull content runner =
      Except.error (str "Failed to parse snippet code: " ++ enrichMessage msg) ∧
    (containsStr (str "has already been declared") msg = true →
      enrichMessage msg = dupDeclMsg msg) ∧
    (containsStr (str "has already been declared") msg = false →
      containsStr (str "Cannot read properties of undefined") msg = true →
      containsStr (str "document") msg = true →
      enrichMessage msg = docPropMsg msg) ∧
    (containsStr (str "has already been declared") msg = false →
      containsStr (str "Cannot read properties of undefined") msg = true →
      containsStr (str "document") msg = false →
      enrichMessage msg = undefObjMsg msg) ∧
    (containsStr (str "has already been declared") msg = false →
      containsStr (str "Cannot read properties of undefined") msg = false →
      containsStr (str "is not defined") msg = true →
      enrichMessage msg = notDefinedMsg msg) := by
  refine ⟨?_, ?_, ?_, ?_, ?_⟩
  · have e : parseFull content runner =
        match runner (assembleScript st) with
        | Except.error msg =>
          Except.error (str "Failed to parse snippet code: " ++ enrichMessage msg)
        | Except.ok gens => zipGenerators st.infos gens := by
      unfold parseFull
      rw [hst]
    rw [e, hrun]
  · intro h1
    unfold enrichMessage
    rw [if_pos h1]
  · intro h1 h2 h3
    unfold enrichMessage
    rw [if_neg (by simp [h1]), if_pos h2, if_pos h3]
  · intro h1 h2 h3
    unfold enrichMessage
    rw [if_neg (by simp [h1]), if_pos h2, if_neg (by simp [h3])]
  · intro h1 h2 h3
    unfold enrichMessage
    rw [if_neg (by simp [h1]), if_neg (by simp [h2]), if_pos h3]

/-- Witness for C8: a failing execution with a duplicate-binding message on
the empty file. -/
theorem c8_execution_failure_aborts_witness :
    parseFull ""
        (fun _ => Except.error (str "x has already been declared") :
          Line → Except Line (List (GenArtifact Unit))) =
      Except.error
        (str "Failed to parse snippet code: " ++
          enrichMessage (str "x has already been declared")) ∧
    enrichMessage (str "x has already been declared") =
      dupDeclMsg (str "x has already been declared") := by
  have h := c8_execution_failure_aborts ""
    (fun _ => Except.error (str "x has already been declared") :
      Line → Except Line (List (GenArtifact Unit)))
    initParseSt (str "x has already been declared") rfl rfl
  exact ⟨h.1, h.2.1 (by decide)⟩

/-- Claim C9: the module-resolution capability handed to the executed unit
never propagates a resolution failure: when the underlying `require` fails it
returns `null` and logs the warning with the error; when it succeeds it
returns the module with no warning. -/
theorem c9_safe_require {α : Type} (req : Line → Except Line α) (m : Line) :
    (∀ e, req m = Except.error e →
      safeRequire req m = (none, [(requireWarning m, e)])) ∧
    (∀ v, req m = Except.ok v → safeRequire req m = (some v, [])) := by
  constructor
  · intro e he
    unfold safeRequire
    rw [he]
  · intro v hv
    unfold safeRequire
    rw [hv]

/-- Witness for C9 at a concrete failing resolution. -/
theorem c9_safe_require_witness :
    safeRequire (fun _ => Except.error (str "not found") : Line → Except Line Unit)
        (str "lodash") =
      (none, [(requireWarning (str "lodash"), str "not found")]) :=
  (c9_safe_require (fun _ => Except.error (str "not found")) (str "lodash")).1
    (str "not found") rfl

/-- Claim C10: missing terminators are tolerated silently: a body whose lines
never start with `endsnippet` (and hold no delimiter) is consumed to end of
file with the loop completing normally; a `global` block with no `endglobal`
pushes every remaining line onto the preamble and parsing returns
successfully; and the concrete file whose final snippet lacks `endsnippet`
still compiles to its one snippet with no error. -/
theorem c10_missing_terminators :
    (∀ (f : Nat) (ls : List Line), msr ls < f →
      (∀ l ∈ ls, startsWithL (str "endsnippet") l = false ∧ containsDelim l = false) →
      bodyLoopF f false ls = some (emitPlain ls, [])) ∧
    (∀ (f : Nat) (ls : List Line) (st : ParseSt), msr ls < f →
      (∀ l ∈ ls, startsWithL (str "endglobal") l = false) →
      parseLoopF f true ls st =
        Except.ok ⟨st.infos, st.script ++ ls, st.priority, st.context⟩) ∧
    (∃ st, parsePhase c10src = Except.ok st ∧ st.infos.length = 1) :=
  ⟨bodyLoopF_plain, parseLoopF_global, ⟨_, rfl, rfl⟩⟩

/-- Witness for C10 at concrete unterminated inputs. -/
theorem c10_missing_terminators_witness :
    bodyLoopF (msr [str "hello"] + 1) false [str "hello"] =
      some (emitPlain [str "hello"], []) ∧
    parseLoopF 3 true [str "x"] initParseSt =
      Except.ok ⟨[], [] ++ [str "x"], 0, none⟩ :=
  ⟨c10_missing_terminators.1 _ [str "hello"] (by decide) (by decide),
   c10_missing_terminators.2.1 3 [str "x"] initParseSt (by decide) (by decide)⟩
